import Mathlib

/-!
Verification of the configuration packing engine and CLI helpers of the
circleci-cli repository.

The packing engine (the filetree package) is specified in the design
document but its source is not part of the reviewed tree; it is modelled
here from the specification, faithful to its words.  The CLI helpers
(packConfig, validateConfig, GetOrgIdFromSlug, buildAgentArguments,
unparseFlag) are translated from the Go source.
-/

set_option maxRecDepth 4000
set_option maxHeartbeats 1000000

namespace CircleCI

/-- Modelled from the spec: the Node data model of the missing filetree
package, a polymorphic union of scalar, mapping (ordered key to Node) and
sequence, produced by parsing one file. -/
inductive Node where
  | scalar (s : String)
  | mapping (entries : List (String × Node))
  | sequence (items : List Node)

/-- Modelled from the spec: the three kinds a Node can have. -/
inductive NodeKind where
  | scalar
  | mapping
  | sequence
deriving DecidableEq

/-- Modelled from the spec: the kind of a Node. -/
def Node.kind : Node → NodeKind
  | .scalar _ => .scalar
  | .mapping _ => .mapping
  | .sequence _ => .sequence

/-- Modelled from the spec: the textual name of the kind of a Node, used
in structure error messages. -/
def kindName : Node → String
  | .scalar _ => "scalar"
  | .mapping _ => "map"
  | .sequence _ => "sequence"

/-- Modelled from the spec: the error taxonomy of the missing filetree
package: IOError, ParseError and the StructureError cases (key collision,
unsupported nesting under a reserved directory, non-mapping root or base
document). -/
inductive PackError where
  | ioError (path msg : String)
  | parseError (path msg : String)
  | keyCollision (key path1 path2 : String)
  | nestedReservedDir (path : String)
  | baseNotMapping (path kind : String)
  | rootNotMapping (path kind : String)

/-- Modelled from the spec: which errors of the taxonomy are structure
errors. -/
def isStructureError : PackError → Bool
  | .keyCollision _ _ _ => true
  | .nestedReservedDir _ => true
  | .baseNotMapping _ _ => true
  | .rootNotMapping _ _ => true
  | _ => false

/-- Modelled from the spec: the human readable message carried by each
error, including the offending paths and kinds. -/
def errMessage : PackError → String
  | .ioError p m => m ++ " at " ++ p
  | .parseError p m => "failed to parse " ++ p ++ ": " ++ m
  | .keyCollision k p1 p2 => "duplicate key " ++ k ++ " from " ++ p1 ++ " and " ++ p2
  | .nestedReservedDir p => "subdirectories are not supported under reserved directories: " ++ p
  | .baseNotMapping p k =>
      "expected a map, got a " ++ k ++ " which is not supported at this time for " ++ p
  | .rootNotMapping p k =>
      "expected a map, got a " ++ k ++ " which is not supported at this time for " ++ p

/-- Modelled from the spec: the filesystem subtree handed to the packing
engine.  A file carries its parse outcome (the Leaf Loader either yields a
Node or a syntax diagnostic); a directory carries its children in the
arbitrary order the operating system enumerates them. -/
inductive FSEntry where
  | file (name path : String) (doc : Except String Node)
  | dir (name path : String) (children : List FSEntry)

/-- Name of a filesystem entry. -/
def FSEntry.fname : FSEntry → String
  | .file n _ _ => n
  | .dir n _ _ => n

/-- Lexicographic order on character lists, used to sort directory
listings by name (the engine must sort regardless of the order the
operating system provides). -/
def charListLe : List Char → List Char → Bool
  | [], _ => true
  | _ :: _, [] => false
  | a :: as, b :: bs =>
    if a < b then true
    else if b < a then false
    else charListLe as bs

/-- Lexicographic order on names. -/
def nameLe (a b : String) : Bool := charListLe a.data b.data

/-- Modelled from the spec: hidden (dotfile) entries are skipped by the
Path Scanner. -/
def hiddenName (s : String) : Bool :=
  match s.data with
  | [] => false
  | c :: _ => c == '.'

/-- File base name with the extension stripped: everything before the last
dot, the whole name when there is no dot. -/
def stripExtChars (cs : List Char) : List Char :=
  match cs.reverse.dropWhile (fun c => c != '.') with
  | [] => cs
  | _ :: rest => rest.reverse

/-- File base name with the extension stripped, as a String. -/
def stripExt (s : String) : String := String.mk (stripExtChars s.data)

/-- Modelled from the spec: one packed child of a directory, carrying its
name, source path, whether it is a directory, the packed tree of the
entry (the Leaf Loader output for a file, the recursively packed tree for
a directory) and its own packed children. -/
inductive PChild where
  | mk (name path : String) (isDir : Bool) (tree : Except PackError Node) (sub : List PChild)

/-- Name of a packed child. -/
def PChild.name : PChild → String
  | .mk n _ _ _ _ => n

/-- Source path of a packed child. -/
def PChild.path : PChild → String
  | .mk _ p _ _ _ => p

/-- Whether a packed child is a directory. -/
def PChild.isDir : PChild → Bool
  | .mk _ _ d _ _ => d

/-- Packed tree of a packed child. -/
def PChild.tree : PChild → Except PackError Node
  | .mk _ _ _ t _ => t

/-- Packed children of a packed child. -/
def PChild.sub : PChild → List PChild
  | .mk _ _ _ _ s => s

/-- Modelled from the spec: the key a sibling entry resolves to: a file
contributes its base name without extension, a directory its name. -/
def keyP (c : PChild) : String :=
  if c.isDir then c.name else stripExt c.name

/-- Ordering of packed children by name, as the Path Scanner sorts a
directory listing. -/
def leP (a b : PChild) : Prop := nameLe a.name b.name = true

instance : DecidableRel leP := fun a b => inferInstanceAs (Decidable (_ = true))

/-- Modelled from the spec: the Path Scanner output for a directory:
hidden entries skipped, the rest sorted lexicographically by name. -/
def scanP (l : List PChild) : List PChild :=
  List.insertionSort leP (l.filter (fun c => !hiddenName c.name))

/-- Looks among later siblings for one resolving to the same key as the
given entry; reports the key and both source paths. -/
def findCollisionWithP (c : PChild) : List PChild → Option (String × String × String)
  | [] => none
  | x :: xs =>
    if keyP x = keyP c then some (keyP c, c.path, x.path)
    else findCollisionWithP c xs

/-- Modelled from the spec: detection of two sibling entries resolving to
the same key, a fatal input error identifying both source paths. -/
def findCollisionP : List PChild → Option (String × String × String)
  | [] => none
  | c :: cs =>
    match findCollisionWithP c cs with
    | some r => some r
    | none => findCollisionP cs

/-- Modelled from the spec: is this entry the primary document of its
directory (a file whose base name is config)? -/
def isPrimaryP (c : PChild) : Bool := !c.isDir && (keyP c == "config")

/-- Modelled from the spec: the names with special meaning handled by the
Reserved-Directory Interpreter. -/
def reservedName (n : String) : Bool :=
  n == "commands" || n == "jobs" || n == "executors"

/-- Modelled from the spec: each immediate child file of a reserved
directory becomes one entry keyed by its base name; a subdirectory is a
fatal structure error (flat namespace only). -/
def reservedEntries : List PChild → Except PackError (List (String × Node))
  | [] => .ok []
  | c :: cs =>
    if c.isDir then .error (.nestedReservedDir c.path)
    else
      match c.tree with
      | .error e => .error e
      | .ok v =>
        match reservedEntries cs with
        | .error e => .error e
        | .ok rest => .ok ((keyP c, v) :: rest)

/-- Modelled from the spec: the Reserved-Directory Interpreter applied to
the children of a commands, jobs or executors directory. -/
def interpretReservedP (sub : List PChild) : Except PackError (List (String × Node)) :=
  match findCollisionP (scanP sub) with
  | some (k, p, q) => .error (.keyCollision k p q)
  | none => reservedEntries (scanP sub)

/-- Modelled from the spec: each child of an orbs directory becomes one
orb entry: a directory is one local orb keyed by its name whose value is
its recursively packed tree, a file is an orb reference keyed by its base
name whose value is the Leaf Loader output. -/
def orbEntries : List PChild → Except PackError (List (String × Node))
  | [] => .ok []
  | c :: cs =>
    match c.tree with
    | .error e => .error e
    | .ok v =>
      match orbEntries cs with
      | .error e => .error e
      | .ok rest => .ok ((if c.isDir then c.name else keyP c, v) :: rest)

/-- Modelled from the spec: the Orb Inliner applied to the children of an
orbs directory. -/
def interpretOrbsP (sub : List PChild) : Except PackError (List (String × Node)) :=
  match findCollisionP (scanP sub) with
  | some (k, p, q) => .error (.keyCollision k p q)
  | none => orbEntries (scanP sub)

/-- Looks a key up in a list of mapping entries. -/
def lookupKey (m : List (String × Node)) (k : String) : Option Node :=
  match m.find? (fun kv => kv.1 == k) with
  | some kv => some kv.2
  | none => none

/-- Sets a key in a list of mapping entries, overwriting in place when the
key already exists and appending otherwise. -/
def setKey (m : List (String × Node)) (k : String) (v : Node) : List (String × Node) :=
  if m.any (fun kv => kv.1 == k) then
    m.map (fun kv => if kv.1 == k then (k, v) else kv)
  else m ++ [(k, v)]

/-- Modelled from the spec: the explicit merge of two mapping values with
key overwrite semantics; entries of the update win over same named keys of
the base. -/
def mergeEntries (base upd : List (String × Node)) : List (String × Node) :=
  upd.foldl (fun acc kv => setKey acc kv.1 kv.2) base

/-- Modelled from the spec: merging a reserved section into the base
document: when the base already holds a mapping under the reserved key,
the interpreter entries are merged into it, overwriting any same named
key inherited from the base (explicit file layout wins), other inherited
entries kept. -/
def mergeReservedValue (baseVal : Option Node) (v : Node) : Node :=
  match baseVal, v with
  | some (.mapping bm), .mapping vm => .mapping (mergeEntries bm vm)
  | _, _ => v

/-- Applies one packed pair to the base mapping entries.  The Bool marks
pairs produced for a reserved directory, which merge with the override
policy; ordinary pairs overwrite wholesale. -/
def applyPair (m : List (String × Node)) (pr : String × Node × Bool) : List (String × Node) :=
  match pr with
  | (k, v, true) => setKey m k (mergeReservedValue (lookupKey m k) v)
  | (k, v, false) => setKey m k v

/-- Modelled from the spec: merging the packed pairs of the non-primary
children into the base document seeded from the primary document.  A base
that is not a mapping is returned unchanged when nothing merges into it,
and is a structure error otherwise. -/
def mergeInto (base : Node) (pairs : List (String × Node × Bool)) (srcPath : String) :
    Except PackError Node :=
  match base with
  | .mapping m => .ok (.mapping (pairs.foldl applyPair m))
  | other =>
    match pairs with
    | [] => .ok other
    | _ => .error (.baseNotMapping srcPath (kindName other))

/-- Modelled from the spec: the packed pair one non-primary child
contributes: reserved directories go to the Reserved-Directory
Interpreter, an orbs directory to the Orb Inliner, any other directory to
its recursively packed tree, any other file to its Leaf Loader output. -/
def buildPair (c : PChild) : Except PackError (String × Node × Bool) :=
  if c.isDir then
    if reservedName c.name then
      match interpretReservedP c.sub with
      | .error e => .error e
      | .ok m => .ok (c.name, .mapping m, true)
    else if c.name == "orbs" then
      match interpretOrbsP c.sub with
      | .error e => .error e
      | .ok m => .ok (c.name, .mapping m, true)
    else
      match c.tree with
      | .error e => .error e
      | .ok t => .ok (c.name, t, false)
  else
    match c.tree with
    | .error e => .error e
    | .ok v => .ok (keyP c, v, false)

/-- Packed pairs of a list of children, first error wins. -/
def buildPairs : List PChild → Except PackError (List (String × Node × Bool))
  | [] => .ok []
  | c :: cs =>
    match buildPair c with
    | .error e => .error e
    | .ok pr =>
      match buildPairs cs with
      | .error e => .error e
      | .ok rest => .ok (pr :: rest)

/-- Modelled from the spec: the Tree Builder applied to an already scanned
directory listing: collisions are fatal, the primary document seeds the
base, every other child merges its packed pair into it. -/
def assembleScanned (dirPath : String) (es : List PChild) : Except PackError Node :=
  match findCollisionP es with
  | some (k, q, r) => .error (.keyCollision k q r)
  | none =>
    match es.find? isPrimaryP with
    | some c =>
      (match c.tree with
       | .error e => .error e
       | .ok base =>
         match buildPairs (es.filter (fun x => !isPrimaryP x)) with
         | .error e => .error e
         | .ok pairs => mergeInto base pairs c.path)
    | none =>
      match buildPairs (es.filter (fun x => !isPrimaryP x)) with
      | .error e => .error e
      | .ok pairs => mergeInto (.mapping []) pairs dirPath

/-- Modelled from the spec: the Tree Builder applied to the children of a
directory: scan (skip hidden, sort by name), then assemble. -/
def assembleDir (dirPath : String) (sub : List PChild) : Except PackError Node :=
  assembleScanned dirPath (scanP sub)

mutual

/-- Modelled from the spec: recursive packing of one filesystem entry of
the missing filetree package: a file is loaded by the Leaf Loader, a
directory is packed bottom up from its packed children. -/
def packEntry : FSEntry → PChild
  | .file n p d =>
    .mk n p false
      (match d with
       | .ok v => .ok v
       | .error m => .error (.parseError p m)) []
  | .dir n p cs => .mk n p true (assembleDir p (packList cs)) (packList cs)

/-- Modelled from the spec: recursive packing of a list of filesystem
entries. -/
def packList : List FSEntry → List PChild
  | [] => []
  | e :: es => packEntry e :: packList es

end

/-- Modelled from the spec: the packed tree of a root path (filetree
NewTree). -/
def buildTree (e : FSEntry) : Except PackError Node := (packEntry e).tree

/-- Modelled from the spec: the path reported by the Merge Validator for a
root whose packed result is not a mapping: the primary document of the
root directory when there is one, the root path otherwise. -/
def primOf (dflt : String) (es : List PChild) : String :=
  match es.find? isPrimaryP with
  | some c => c.path
  | none => dflt

/-- Modelled from the spec: the source path blamed for the content of the
packed root. -/
def primaryPath : FSEntry → String
  | .file _ p _ => p
  | .dir _ p cs => primOf p (scanP (packList cs))

mutual

/-- Modelled from the spec: the Serializer, rendering a Node to text with
mapping key order preserved as constructed. -/
def serNode : Node → String
  | .scalar s => s
  | .mapping es => "(" ++ serEntries es ++ ")"
  | .sequence vs => "(" ++ serItems vs ++ ")"

/-- Serializes mapping entries in order. -/
def serEntries : List (String × Node) → String
  | [] => ""
  | e :: rest => e.1 ++ ": " ++ serNode e.2 ++ "; " ++ serEntries rest

/-- Serializes sequence items in order. -/
def serItems : List Node → String
  | [] => ""
  | v :: rest => "- " ++ serNode v ++ "; " ++ serItems rest

end

/-- Modelled from the spec: the Merge Validator followed by the
Serializer: a packed root that is a mapping is rendered, any other kind is
a structure error naming the blamed source path and the kind
encountered. -/
def packAux (pp : String) : Except PackError Node → Except PackError String
  | .error e => .error e
  | .ok (.mapping es) => .ok (serNode (.mapping es))
  | .ok t => .error (.rootNotMapping pp (kindName t))

/-- Modelled from the spec: the Pack entry point: build the tree, validate
the root kind, serialize. -/
def pack (root : FSEntry) : Except PackError String :=
  packAux (primaryPath root) (buildTree root)

/-- The packConfig command handler, translated from the Go source: build
the tree (wrapping a failure with a context message), marshal it (wrapping
a failure with another context message), and print the document followed
by a newline. -/
def packConfig (root : FSEntry) : Except String String :=
  match buildTree root with
  | .error e => .error ("An error occurred trying to build the tree" ++ ": " ++ errMessage e)
  | .ok t =>
    match packAux (primaryPath root) (.ok t) with
    | .error e => .error ("Failed trying to marshal the tree to YAML " ++ ": " ++ errMessage e)
    | .ok y => .ok (y ++ "\n")

/-! ### Ordering lemmas for the Path Scanner -/

theorem charListLe_total : ∀ as bs, charListLe as bs = true ∨ charListLe bs as = true
  | [], _ => Or.inl rfl
  | _ :: _, [] => Or.inr rfl
  | a :: as, b :: bs => by
    rcases lt_trichotomy a b with h | h | h
    · left; simp [charListLe, h]
    · subst h
      rcases charListLe_total as bs with ih | ih
      · left; simp [charListLe, lt_irrefl, ih]
      · right; simp [charListLe, lt_irrefl, ih]
    · right; simp [charListLe, h]

theorem charListLe_trans : ∀ as bs cs, charListLe as bs = true → charListLe bs cs = true →
    charListLe as cs = true
  | [], _, _, _, _ => rfl
  | _ :: _, [], _, h, _ => by simp [charListLe] at h
  | _ :: _, _ :: _, [], _, h => by simp [charListLe] at h
  | a :: as, b :: bs, c :: cs, h₁, h₂ => by
    rcases lt_trichotomy a b with hab | hab | hab
    · rcases lt_trichotomy b c with hbc | hbc | hbc
      · simp only [charListLe]
        rw [if_pos (lt_trans hab hbc)]
      · subst hbc
        simp only [charListLe]
        rw [if_pos hab]
      · simp only [charListLe] at h₂
        rw [if_neg (lt_asymm hbc), if_pos hbc] at h₂
        exact absurd h₂ (by decide)
    · subst hab
      simp only [charListLe] at h₁
      rw [if_neg (lt_irrefl a), if_neg (lt_irrefl a)] at h₁
      rcases lt_trichotomy a c with hac | hac | hac
      · simp only [charListLe]
        rw [if_pos hac]
      · subst hac
        simp only [charListLe] at h₂ ⊢
        rw [if_neg (lt_irrefl a), if_neg (lt_irrefl a)] at h₂ ⊢
        exact charListLe_trans as bs cs h₁ h₂
      · simp only [charListLe] at h₂
        rw [if_neg (lt_asymm hac), if_pos hac] at h₂
        exact absurd h₂ (by decide)
    · simp only [charListLe] at h₁
      rw [if_neg (lt_asymm hab), if_pos hab] at h₁
      exact absurd h₁ (by decide)

theorem charListLe_antisymm : ∀ as bs, charListLe as bs = true → charListLe bs as = true →
    as = bs
  | [], [], _, _ => rfl
  | [], _ :: _, _, h => by simp [charListLe] at h
  | _ :: _, [], h, _ => by simp [charListLe] at h
  | a :: as, b :: bs, h₁, h₂ => by
    rcases lt_trichotomy a b with h | h | h
    · simp [charListLe, h, lt_asymm h] at h₂
    · subst h
      simp only [charListLe, lt_irrefl, if_false] at h₁ h₂
      rw [charListLe_antisymm as bs h₁ h₂]
    · simp [charListLe, h, lt_asymm h] at h₁

theorem nameLe_total (s t : String) : nameLe s t = true ∨ nameLe t s = true :=
  charListLe_total s.data t.data

theorem nameLe_trans {s t u : String} (h₁ : nameLe s t = true) (h₂ : nameLe t u = true) :
    nameLe s u = true :=
  charListLe_trans s.data t.data u.data h₁ h₂

theorem nameLe_antisymm {s t : String} (h₁ : nameLe s t = true) (h₂ : nameLe t s = true) :
    s = t := by
  have h := charListLe_antisymm s.data t.data h₁ h₂
  cases s with
  | mk d₁ => cases t with
    | mk d₂ => exact congrArg String.mk h

instance : IsTotal PChild leP := ⟨fun a b => nameLe_total a.name b.name⟩

instance : IsTrans PChild leP := ⟨fun _ _ _ h₁ h₂ => nameLe_trans h₁ h₂⟩

/-- Strict ordering of packed children by name, used to show sorted
listings with distinct names are unique. -/
def ltP (a b : PChild) : Prop := nameLe a.name b.name = true ∧ a.name ≠ b.name

instance : IsAntisymm PChild ltP :=
  ⟨fun _ _ h₁ h₂ => absurd (nameLe_antisymm h₁.1 h₂.1) h₁.2⟩

theorem scanP_sorted (l : List PChild) : List.Sorted leP (scanP l) :=
  List.sorted_insertionSort leP _

theorem scanP_perm (l : List PChild) :
    (scanP l).Perm (l.filter (fun c => !hiddenName c.name)) :=
  List.perm_insertionSort leP _

theorem sorted_strict {es : List PChild} (hs : List.Sorted leP es)
    (hn : (es.map PChild.name).Nodup) : List.Sorted ltP es := by
  have hn' : List.Pairwise (fun a b : PChild => a.name ≠ b.name) es :=
    List.pairwise_map.mp hn
  exact List.Pairwise.imp₂ (fun _ _ h₁ h₂ => ⟨h₁, h₂⟩) hs hn'

theorem scanP_nodup_names {l : List PChild} (hn : (l.map PChild.name).Nodup) :
    ((scanP l).map PChild.name).Nodup := by
  have h₁ : ((l.filter (fun c => !hiddenName c.name)).map PChild.name).Nodup :=
    ((List.filter_sublist l).map PChild.name).nodup hn
  exact (((scanP_perm l).map PChild.name).symm).nodup h₁

/-- The scan of a directory listing is a function of the set of children
only: any two enumeration orders with distinct names scan identically. -/
theorem scanP_perm_eq {l l' : List PChild} (h : l.Perm l')
    (hn : (l.map PChild.name).Nodup) : scanP l = scanP l' := by
  have hn' : (l'.map PChild.name).Nodup := (h.map PChild.name).nodup hn
  have hperm : (scanP l).Perm (scanP l') :=
    (scanP_perm l).trans (((h.filter _)).trans (scanP_perm l').symm)
  exact @List.eq_of_perm_of_sorted PChild ltP _ _ _ hperm
    (sorted_strict (scanP_sorted l) (scanP_nodup_names hn))
    (sorted_strict (scanP_sorted l') (scanP_nodup_names hn'))

/-! ### Collision detection lemmas -/

theorem findCollisionWithP_eq_none {c : PChild} : ∀ {xs : List PChild},
    findCollisionWithP c xs = none ↔ ∀ x ∈ xs, keyP x ≠ keyP c := by
  intro xs
  induction xs with
  | nil => simp [findCollisionWithP]
  | cons x xs ih =>
    by_cases h : keyP x = keyP c
    · simp [findCollisionWithP, h]
    · simp [findCollisionWithP, h, ih]

theorem findCollisionP_eq_none : ∀ {l : List PChild},
    findCollisionP l = none ↔ (l.map keyP).Nodup := by
  intro l
  induction l with
  | nil => simp [findCollisionP]
  | cons c cs ih =>
    constructor
    · intro h
      rw [findCollisionP] at h
      rcases hw : findCollisionWithP c cs with _ | r
      · rw [hw] at h
        have hmem : keyP c ∉ cs.map keyP := by
          rw [List.mem_map]
          rintro ⟨x, hx, hk⟩
          exact (findCollisionWithP_eq_none.mp hw x hx) hk
        exact List.nodup_cons.mpr ⟨hmem, ih.mp h⟩
      · rw [hw] at h; exact absurd h (by simp)
    · intro h
      rcases List.nodup_cons.mp h with ⟨hmem, htl⟩
      rw [findCollisionP]
      have hw : findCollisionWithP c cs = none := by
        rw [findCollisionWithP_eq_none]
        intro x hx hk
        exact hmem (List.mem_map.mpr ⟨x, hx, hk⟩)
      rw [hw, ih.mpr htl]

theorem findCollisionWithP_some {c : PChild} : ∀ {xs : List PChild} {k p q : String},
    findCollisionWithP c xs = some (k, p, q) →
    ∃ x ∈ xs, keyP x = keyP c ∧ k = keyP c ∧ p = c.path ∧ q = x.path := by
  intro xs
  induction xs with
  | nil => intro k p q h; exact absurd h (by simp [findCollisionWithP])
  | cons x xs ih =>
    intro k p q h
    by_cases hk : keyP x = keyP c
    · rw [findCollisionWithP, if_pos hk] at h
      obtain ⟨h₁, h₂, h₃⟩ : keyP c = k ∧ c.path = p ∧ x.path = q := by
        injection h with h
        simpa using h
      exact ⟨x, List.mem_cons_self x xs, hk, h₁.symm, h₂.symm, h₃.symm⟩
    · rw [findCollisionWithP, if_neg hk] at h
      obtain ⟨y, hy, hrest⟩ := ih h
      exact ⟨y, List.mem_cons_of_mem x hy, hrest⟩

theorem findCollisionP_some : ∀ {l : List PChild} {k p q : String},
    findCollisionP l = some (k, p, q) →
    ∃ c₁ c₂, List.Sublist [c₁, c₂] l ∧ keyP c₁ = k ∧ keyP c₂ = k ∧
      c₁.path = p ∧ c₂.path = q := by
  intro l
  induction l with
  | nil => intro k p q h; exact absurd h (by simp [findCollisionP])
  | cons c cs ih =>
    intro k p q h
    rw [findCollisionP] at h
    rcases hw : findCollisionWithP c cs with _ | r
    · rw [hw] at h
      obtain ⟨c₁, c₂, hsub, h₁, h₂, h₃, h₄⟩ := ih h
      exact ⟨c₁, c₂, hsub.cons c, h₁, h₂, h₃, h₄⟩
    · rw [hw] at h
      injection h with h
      subst h
      obtain ⟨x, hx, hk, h₁, h₂, h₃⟩ := findCollisionWithP_some hw
      refine ⟨c, x, ?_, ?_, ?_, ?_, ?_⟩
      · exact List.Sublist.cons₂ c (List.singleton_sublist.mpr hx)
      · exact h₁.symm
      · rw [hk, ← h₁]
      · exact h₂.symm
      · exact h₃.symm

/-! ### Packing respects enumeration order -/

theorem packList_eq_map : ∀ ds : List FSEntry, packList ds = ds.map packEntry := by
  intro ds
  induction ds with
  | nil => rfl
  | cons d ds ih => simp [packList, ih]

theorem packEntry_name : ∀ e : FSEntry, (packEntry e).name = e.fname := by
  intro e
  cases e <;> rfl

theorem names_packList : ∀ ds : List FSEntry,
    (packList ds).map PChild.name = ds.map FSEntry.fname := by
  intro ds
  induction ds with
  | nil => rfl
  | cons d ds ih => simp [packList, packEntry_name, ih]

/-! ### CLI helpers translated from the Go source -/

/-- One collaboration entry returned by the collaborations endpoint,
translated from the Go struct (field names kept, including the VcsTye
spelling). -/
structure CollaborationResult where
  VcsTye : String
  OrgSlug : String
  OrgName : String
  OrgId : String
  AvatarUrl : String

/-- GetOrgIdFromSlug, translated from the Go source: walk the
collaborations in order and return the OrgId of the first whose OrgSlug
equals the slug, the empty string when none does. -/
def GetOrgIdFromSlug (slug : String) : List CollaborationResult → String
  | [] => ""
  | v :: rest => if v.OrgSlug = slug then v.OrgId else GetOrgIdFromSlug slug rest

/-- The built in default config path, translated from local.go. -/
def DefaultConfigPath : String := ".circleci/config.yml"

/-- The path selection of validateConfig, translated from the Go source:
start from the built in default, replace it by the config flag value when
that is non-empty, then replace the result by the positional argument when
exactly one was supplied. -/
def validateConfigPath (configPath : String) (args : List String) : String :=
  let path := DefaultConfigPath
  let path := if configPath ≠ "" then configPath else path
  if args.length = 1 then args.getD 0 "" else path

/-- One parsed flag of the flag set handed to buildAgentArguments:
its name, the type name of its value, its current textual value, its
slice of values when the type is stringArray, and whether it was set on
the command line. -/
structure AgentFlag where
  name : String
  typ : String
  value : String
  slice : List String
  changed : Bool

/-- A flag set: the flags in visitation order together with the
positional arguments. -/
structure AgentFlagSet where
  flags : List AgentFlag
  args : List String

/-- unparseFlag, translated from the Go source: convert a flag back into
command line strings; a stringArray flag yields one name value pair per
element of its slice, any other flag yields a single name value pair. -/
def unparseFlag (flag : AgentFlag) : List String :=
  match flag.typ with
  | "stringArray" => flag.slice.foldl (fun acc v => acc ++ ["--" ++ flag.name, v]) []
  | _ => ["--" ++ flag.name, flag.value]

/-- Whether buildAgentArguments consumes the flag instead of passing it
on, translated from the name test in the Go source. -/
def consumedFlag (n : String) : Bool :=
  n == "org-slug" || n == "config" || n == "debug" || n == "org-id"

/-- GetString on the flag set: the value of the named flag, empty when the
flag does not exist. -/
def getStringFlag (fs : AgentFlagSet) (n : String) : String :=
  match fs.flags.find? (fun f => f.name == n) with
  | some f => f.value
  | none => ""

/-- buildAgentArguments, translated from the Go source: visit the flags
that were set, passing each on via unparseFlag unless its name is
org-slug, config, debug or org-id; append the positional arguments; and
return next to it the value of the config flag. -/
def buildAgentArguments (fs : AgentFlagSet) : List String × String :=
  let result := fs.flags.foldl
    (fun acc f => if f.changed && !consumedFlag f.name then acc ++ unparseFlag f else acc) []
  (result ++ fs.args, getStringFlag fs "config")

theorem foldl_append_flatten {α β : Type} (g : α → List β) :
    ∀ (l : List α) (acc : List β),
      l.foldl (fun a v => a ++ g v) acc = acc ++ (l.map g).flatten := by
  intro l
  induction l with
  | nil => intro acc; simp
  | cons x xs ih => intro acc; simp [ih, List.append_assoc]

theorem foldl_filter_append_flatten {α β : Type} (P : α → Bool) (g : α → List β) :
    ∀ (l : List α) (acc : List β),
      l.foldl (fun a v => if P v then a ++ g v else a) acc =
        acc ++ ((l.filter P).map g).flatten := by
  intro l
  induction l with
  | nil => intro acc; simp
  | cons x xs ih =>
    intro acc
    by_cases h : P x
    · simp [h, ih, List.append_assoc]
    · simp [h, ih]

/-- Looks a key up in a Node, yielding something only on mappings. -/
def nodeGet : Node → String → Option Node
  | .mapping m, k => lookupKey m k
  | _, _ => none

/-! ### Claims -/

/-- Claim C1: for every root whose packed result is not a Mapping, Pack
fails with a StructureError naming the blamed source path and the actual
kind encountered, and emits no packed document (the result is an error,
never a document). -/
theorem pack_nonMapping_root_structure_error (root : FSEntry) (n : Node)
    (hb : buildTree root = .ok n) (hk : Node.kind n ≠ NodeKind.mapping) :
    pack root = .error (.rootNotMapping (primaryPath root) (kindName n)) ∧
      isStructureError (.rootNotMapping (primaryPath root) (kindName n)) = true := by
  refine ⟨?_, rfl⟩
  cases n with
  | mapping es => exact absurd rfl hk
  | scalar s => simp [pack, hb, packAux]
  | sequence vs => simp [pack, hb, packAux]

/-- Witness for C1: a root directory holding only a config file whose
content is a list packs to a Sequence, and Pack fails with the structure
error naming that file and the sequence kind. -/
theorem pack_nonMapping_root_structure_error_witness :
    buildTree (.dir "myorb" "/home/myorb"
        [.file "config.yaml" "/home/myorb/config.yaml" (.ok (.sequence []))]) =
      .ok (.sequence []) ∧
    Node.kind (.sequence []) ≠ NodeKind.mapping ∧
    pack (.dir "myorb" "/home/myorb"
        [.file "config.yaml" "/home/myorb/config.yaml" (.ok (.sequence []))]) =
      .error (.rootNotMapping "/home/myorb/config.yaml" "sequence") :=
  ⟨rfl, by decide,
    (pack_nonMapping_root_structure_error
      (.dir "myorb" "/home/myorb"
        [.file "config.yaml" "/home/myorb/config.yaml" (.ok (.sequence []))])
      (.sequence []) rfl (by decide)).1⟩

/-- Counterexample for C2: packConfig does not propagate the packing error
unchanged; the message returned to the caller carries a context prefix, so
it differs from the underlying error message. -/
theorem packConfig_modifies_error_message :
    packConfig (.dir "myorb" "/home/myorb"
        [.file "config.yaml" "/home/myorb/config.yaml" (.ok (.sequence []))]) =
      .error ("Failed trying to marshal the tree to YAML : " ++
        errMessage (.rootNotMapping "/home/myorb/config.yaml" "sequence")) ∧
    ("Failed trying to marshal the tree to YAML : " ++
        errMessage (.rootNotMapping "/home/myorb/config.yaml" "sequence")) ≠
      errMessage (.rootNotMapping "/home/myorb/config.yaml" "sequence") :=
  ⟨rfl, by decide⟩

/-- Claim C2 (amended): every error produced during packing is fatal to
the invocation and no document is emitted, and the error reaches the
caller with its underlying message preserved as a suffix of a fixed
context prefix, rather than unchanged. -/
theorem packConfig_errors_fatal_and_wrapped (root : FSEntry) :
    (∀ e, buildTree root = .error e →
      packConfig root =
        .error ("An error occurred trying to build the tree" ++ ": " ++ errMessage e)) ∧
    (∀ t e, buildTree root = .ok t → packAux (primaryPath root) (.ok t) = .error e →
      packConfig root =
        .error ("Failed trying to marshal the tree to YAML " ++ ": " ++ errMessage e)) ∧
    (∀ s y, packConfig root = .error s → packConfig root ≠ .ok y) := by
  refine ⟨fun e he => ?_, fun t e ht he => ?_, fun s y hs => ?_⟩
  · simp [packConfig, he]
  · simp [packConfig, ht, he]
  · rw [hs]
    exact fun h => Except.noConfusion h

/-- Witness for C2 (amended): the list-as-root input produces the wrapped
marshal error. -/
theorem packConfig_errors_fatal_and_wrapped_witness :
    packConfig (.dir "myorb" "/home/myorb"
        [.file "config.yaml" "/home/myorb/config.yaml" (.ok (.sequence []))]) =
      .error ("Failed trying to marshal the tree to YAML " ++ ": " ++
        errMessage (.rootNotMapping "/home/myorb/config.yaml" "sequence")) :=
  (packConfig_errors_fatal_and_wrapped
    (.dir "myorb" "/home/myorb"
      [.file "config.yaml" "/home/myorb/config.yaml" (.ok (.sequence []))])).2.1
    (.sequence []) (.rootNotMapping "/home/myorb/config.yaml" "sequence") rfl rfl

/-- Claim C3: a root whose primary document defines an inline key under a
reserved section and whose reserved directory holds a file resolving to
the same key packs that key to the file content, not the inline value. -/
theorem override_policy_file_wins (inl fileC : Node) (rp p0 p1 p2 : String) :
    buildTree (.dir "test" rp
      [.file "config.yml" p0 (.ok (.mapping
        [("version", .scalar "2.1"), ("jobs", .mapping [("build", inl)])])),
       .dir "jobs" p1 [.file "build.yml" p2 (.ok fileC)]]) =
      .ok (.mapping
        [("version", .scalar "2.1"), ("jobs", .mapping [("build", fileC)])]) ∧
    ((nodeGet (.mapping
        [("version", .scalar "2.1"), ("jobs", .mapping [("build", fileC)])]) "jobs").bind
      (fun j => nodeGet j "build")) = some fileC :=
  ⟨rfl, rfl⟩

/-- Claim C4: a subdirectory of orbs packs recursively under its name (the
nested value equals the independent packing of that subdirectory), and an
immediate file child of orbs maps its base name to the Leaf Loader output
of that file. -/
theorem orbs_recursive_packing (bc brc : Node) (rp po pf pc pcm pb pbr : String) :
    buildTree (.dir "test" rp
      [.dir "orbs" po
        [.dir "foo" pf
          [.file "config.yml" pc (.ok (.mapping [("version", .scalar "2.1")])),
           .dir "commands" pcm [.file "build.yml" pb (.ok bc)]],
         .file "bar.yml" pbr (.ok brc)]]) =
      .ok (.mapping [("orbs", .mapping
        [("bar", brc),
         ("foo", .mapping [("version", .scalar "2.1"),
                           ("commands", .mapping [("build", bc)])])])]) ∧
    buildTree (.dir "foo" pf
      [.file "config.yml" pc (.ok (.mapping [("version", .scalar "2.1")])),
       .dir "commands" pcm [.file "build.yml" pb (.ok bc)]]) =
      .ok (.mapping [("version", .scalar "2.1"),
                     ("commands", .mapping [("build", bc)])]) ∧
    nodeGet (.mapping [("version", .scalar "2.1"),
                       ("commands", .mapping [("build", bc)])]) "version" =
      some (.scalar "2.1") ∧
    ((nodeGet (.mapping [("version", .scalar "2.1"),
                         ("commands", .mapping [("build", bc)])]) "commands").bind
      (fun m => nodeGet m "build")) = some bc :=
  ⟨rfl, rfl, rfl, rfl⟩

/-- Claim C5: whenever two sibling entries of a directory being packed
resolve to the same key, packing fails with a structure error carrying the
colliding key and the source paths of two sibling entries resolving to
it. -/
theorem sibling_key_collision_fails (nm p : String) (cs : List FSEntry)
    (hc : ¬ ((scanP (packList cs)).map keyP).Nodup) :
    ∃ k q r, buildTree (.dir nm p cs) = .error (.keyCollision k q r) ∧
      ∃ c₁ c₂, List.Sublist [c₁, c₂] (scanP (packList cs)) ∧
        keyP c₁ = k ∧ keyP c₂ = k ∧ c₁.path = q ∧ c₂.path = r := by
  rcases hfc : findCollisionP (scanP (packList cs)) with _ | ⟨k, q, r⟩
  · exact absurd (findCollisionP_eq_none.mp hfc) hc
  · obtain ⟨c₁, c₂, hsub, h₁, h₂, h₃, h₄⟩ := findCollisionP_some hfc
    refine ⟨k, q, r, ?_, c₁, c₂, hsub, h₁, h₂, h₃, h₄⟩
    simp [buildTree, packEntry, PChild.tree, assembleDir, assembleScanned, hfc]

/-- Witness for C5: two sibling files test.yml and test.yaml resolve to
the key test and packing their directory fails with the collision error
naming both paths. -/
theorem sibling_key_collision_fails_witness :
    (¬ ((scanP (packList
        [FSEntry.file "test.yml" "/r/test.yml" (.ok (.mapping [])),
         FSEntry.file "test.yaml" "/r/test.yaml" (.ok (.mapping []))])).map keyP).Nodup) ∧
    (∃ k q r, buildTree (.dir "r" "/r"
        [FSEntry.file "test.yml" "/r/test.yml" (.ok (.mapping [])),
         FSEntry.file "test.yaml" "/r/test.yaml" (.ok (.mapping []))]) =
          .error (.keyCollision k q r) ∧
      ∃ c₁ c₂, List.Sublist [c₁, c₂] (scanP (packList
        [FSEntry.file "test.yml" "/r/test.yml" (.ok (.mapping [])),
         FSEntry.file "test.yaml" "/r/test.yaml" (.ok (.mapping []))])) ∧
        keyP c₁ = k ∧ keyP c₂ = k ∧ c₁.path = q ∧ c₂.path = r) :=
  ⟨by decide,
   sibling_key_collision_fails "r" "/r"
     [FSEntry.file "test.yml" "/r/test.yml" (.ok (.mapping [])),
      FSEntry.file "test.yaml" "/r/test.yaml" (.ok (.mapping []))] (by decide)⟩

/-- Claim C6: the children of every directory scanned during packing are
processed in ascending lexicographic name order regardless of the
enumeration order the operating system provides (the scan is sorted and
invariant under permutation of its input), so sibling files a.yml and
b.yml under commands always pack as the a entry followed by the b
entry. -/
theorem scan_order_deterministic :
    (∀ (l l2 : List PChild), l.Perm l2 → (l.map PChild.name).Nodup →
      scanP l = scanP l2 ∧ List.Sorted leP (scanP l)) ∧
    (∀ (ca cb : Node) (p pa pb pc : String),
      buildTree (.dir "root" p [.dir "commands" pc
        [.file "b.yml" pb (.ok cb), .file "a.yml" pa (.ok ca)]]) =
        .ok (.mapping [("commands", .mapping [("a", ca), ("b", cb)])])) :=
  ⟨fun l l2 h hn => ⟨scanP_perm_eq h hn, scanP_sorted l⟩,
   fun _ _ _ _ _ _ => rfl⟩

/-- Witness for C6: the scans of the two enumeration orders of a.yml and
b.yml agree and are sorted. -/
theorem scan_order_deterministic_witness :
    scanP [PChild.mk "b.yml" "/c/b.yml" false (.ok (.mapping [])) [],
           PChild.mk "a.yml" "/c/a.yml" false (.ok (.mapping [])) []] =
      scanP [PChild.mk "a.yml" "/c/a.yml" false (.ok (.mapping [])) [],
             PChild.mk "b.yml" "/c/b.yml" false (.ok (.mapping [])) []] ∧
    List.Sorted leP (scanP [PChild.mk "b.yml" "/c/b.yml" false (.ok (.mapping [])) [],
                            PChild.mk "a.yml" "/c/a.yml" false (.ok (.mapping [])) []]) :=
  scan_order_deterministic.1 _ _
    (List.Perm.swap (PChild.mk "a.yml" "/c/a.yml" false (.ok (.mapping [])) [])
      (PChild.mk "b.yml" "/c/b.yml" false (.ok (.mapping [])) []) [])
    (by decide)

/-- Claim C7: packing is a deterministic pure function of the filesystem
subtree: two invocations on the same unchanged tree, differing only in
the enumeration order the operating system reports the children in, yield
byte-identical output. -/
theorem pack_deterministic (nm p : String) (cs cs2 : List FSEntry)
    (h : cs.Perm cs2) (hn : (cs.map FSEntry.fname).Nodup) :
    pack (.dir nm p cs) = pack (.dir nm p cs2) := by
  have hperm : (packList cs).Perm (packList cs2) := by
    rw [packList_eq_map, packList_eq_map]
    exact h.map packEntry
  have hnodup : ((packList cs).map PChild.name).Nodup := by
    rw [names_packList]
    exact hn
  have hscan : scanP (packList cs) = scanP (packList cs2) := scanP_perm_eq hperm hnodup
  have e₁ : pack (.dir nm p cs) =
      packAux (primOf p (scanP (packList cs)))
        (assembleScanned p (scanP (packList cs))) := rfl
  have e₂ : pack (.dir nm p cs2) =
      packAux (primOf p (scanP (packList cs2)))
        (assembleScanned p (scanP (packList cs2))) := rfl
  rw [e₁, e₂, hscan]

/-- Witness for C7: the two enumeration orders of the same two files pack
identically. -/
theorem pack_deterministic_witness :
    pack (.dir "r" "/r" [FSEntry.file "b.yml" "/r/b.yml" (.ok (.mapping [])),
                         FSEntry.file "a.yml" "/r/a.yml" (.ok (.mapping []))]) =
      pack (.dir "r" "/r" [FSEntry.file "a.yml" "/r/a.yml" (.ok (.mapping [])),
                           FSEntry.file "b.yml" "/r/b.yml" (.ok (.mapping []))]) :=
  pack_deterministic "r" "/r" _ _
    (List.Perm.swap (FSEntry.file "a.yml" "/r/a.yml" (.ok (.mapping [])))
      (FSEntry.file "b.yml" "/r/b.yml" (.ok (.mapping []))) [])
    (by decide)

/-- Claim C8: GetOrgIdFromSlug returns the OrgId of the first
collaboration in list order whose OrgSlug equals the slug exactly, and
the empty string when no collaboration matches. -/
theorem getOrgIdFromSlug_first_match (slug : String)
    (collaborations : List CollaborationResult) :
    GetOrgIdFromSlug slug collaborations =
      match collaborations.find? (fun v => v.OrgSlug == slug) with
      | some v => v.OrgId
      | none => "" := by
  induction collaborations with
  | nil => rfl
  | cons v rest ih =>
    by_cases h : v.OrgSlug = slug
    · have hf : (v :: rest).find? (fun x => x.OrgSlug == slug) = some v :=
        List.find?_cons_of_pos _ (by simp [h])
      simp only [GetOrgIdFromSlug, hf, if_pos h]
    · have hf : (v :: rest).find? (fun x => x.OrgSlug == slug) =
          rest.find? (fun x => x.OrgSlug == slug) :=
        List.find?_cons_of_neg _ (by simp [h])
      simp only [GetOrgIdFromSlug, hf, if_neg h]
      exact ih

/-- Claim C9: the config path used by validateConfig is chosen with fixed
precedence: a single positional argument overrides the config flag value,
a non-empty flag value overrides the built in default, and the built in
default is the final choice only when the flag value is empty. -/
theorem validateConfigPath_precedence (configPath : String) (args : List String) :
    (args.length = 1 → validateConfigPath configPath args = args.getD 0 "") ∧
    (args.length ≠ 1 → configPath ≠ "" →
      validateConfigPath configPath args = configPath) ∧
    (args.length ≠ 1 → configPath = "" →
      validateConfigPath configPath args = DefaultConfigPath) := by
  refine ⟨fun h => ?_, fun h hc => ?_, fun h hc => ?_⟩
  · simp [validateConfigPath, h]
  · simp [validateConfigPath, h, hc]
  · simp [validateConfigPath, h, hc]

/-- Witness for C9: the positional argument wins, the flag wins with no
argument, and the default is chosen only for an empty flag value. -/
theorem validateConfigPath_precedence_witness :
    validateConfigPath "custom.yml" ["arg.yml"] = "arg.yml" ∧
    validateConfigPath "custom.yml" [] = "custom.yml" ∧
    validateConfigPath "" [] = DefaultConfigPath :=
  ⟨(validateConfigPath_precedence "custom.yml" ["arg.yml"]).1 rfl,
   (validateConfigPath_precedence "custom.yml" []).2.1 (by decide) (by decide),
   (validateConfigPath_precedence "" []).2.2 (by decide) rfl⟩

/-- Claim C10: buildAgentArguments returns exactly the unparsed name value
pairs of the set flags other than org-slug, config, debug and org-id
(stringArray flags expanded one pair per element), followed by the
positional arguments, and returns the value of the config flag as the
config path. -/
theorem buildAgentArguments_spec (fs : AgentFlagSet) :
    (buildAgentArguments fs).1 =
      ((fs.flags.filter (fun f => f.changed && !consumedFlag f.name)).map
        unparseFlag).flatten ++ fs.args ∧
    (buildAgentArguments fs).2 = getStringFlag fs "config" ∧
    (∀ f : AgentFlag, f.typ = "stringArray" →
      unparseFlag f = (f.slice.map (fun v => ["--" ++ f.name, v])).flatten) ∧
    (∀ f : AgentFlag, f.typ ≠ "stringArray" →
      unparseFlag f = ["--" ++ f.name, f.value]) := by
  refine ⟨?_, rfl, fun f hf => ?_, fun f hf => ?_⟩
  · simp only [buildAgentArguments]
    rw [foldl_filter_append_flatten]
    simp
  · simp only [unparseFlag, hf]
    rw [foldl_append_flatten]
    simp
  · unfold unparseFlag
    split
    · rename_i heq
      exact absurd heq hf
    · rfl

/-- Witness for C10: a concrete flag set with one passed flag, one
consumed flag and a positional argument, plus the two unparse shapes. -/
theorem buildAgentArguments_spec_witness :
    (buildAgentArguments
      ⟨[⟨"job", "string", "build", [], true⟩,
        ⟨"config", "string", "cfg.yml", [], true⟩], ["p1"]⟩).1 =
      (([⟨"job", "string", "build", [], true⟩] :
          List AgentFlag).map unparseFlag).flatten ++ ["p1"] ∧
    (buildAgentArguments
      ⟨[⟨"job", "string", "build", [], true⟩,
        ⟨"config", "string", "cfg.yml", [], true⟩], ["p1"]⟩).2 =
      getStringFlag
        ⟨[⟨"job", "string", "build", [], true⟩,
          ⟨"config", "string", "cfg.yml", [], true⟩], ["p1"]⟩ "config" ∧
    unparseFlag ⟨"env", "stringArray", "", ["A=1", "B=2"], true⟩ =
      ((["A=1", "B=2"].map (fun v => ["--env", v]))).flatten ∧
    unparseFlag ⟨"job", "string", "build", [], true⟩ = ["--job", "build"] := by
  have h := buildAgentArguments_spec
    ⟨[⟨"job", "string", "build", [], true⟩,
      ⟨"config", "string", "cfg.yml", [], true⟩], ["p1"]⟩
  exact ⟨h.1, h.2.1,
    h.2.2.1 ⟨"env", "stringArray", "", ["A=1", "B=2"], true⟩ rfl,
    h.2.2.2 ⟨"job", "string", "build", [], true⟩ (by decide)⟩

end CircleCI
